import Mathlib

/-!
Shallow embedding of the ghostty-web screen/scrollback selection and
terminal-facade layer (src/lib: selection-manager, terminal).

Text is modelled as a list of unicode codepoints (newline is 10, space 32).
A terminal buffer is the list of its absolute rows (scrollback oldest-first,
then the live screen), each row a list of cells, matching the external state
machine's `getLine(row)` accessor which is indexed by absolute row.
-/

namespace GhosttyWeb

/-- One grid cell as exposed by the external state machine: a unicode
codepoint (0 = empty) and a display width (0 = padding continuation of a
preceding wide cell). Style and color attributes are irrelevant to the
claims and omitted. -/
structure GhosttyCell where
  codepoint : Nat
  width : Nat
deriving DecidableEq, Repr

/-- A buffer line: the cells of one absolute row. -/
abbrev Line := List GhosttyCell

/-- The whole buffer, indexed by absolute row (scrollback ++ screen). -/
abbrev Buffer := List Line

/-- `wasmTerm.getLine(row)`: returns the row's cells, or nothing when the
row is out of range. -/
def getLine (buf : Buffer) (row : Nat) : Option Line :=
  buf[row]?

/-- A selection endpoint as stored by SelectionManager (`{col, row}`). -/
structure CellPos where
  col : Nat
  row : Nat
deriving DecidableEq, Repr

/-- Normalized selection coordinates (selection-manager.ts). -/
structure SelectionCoordinates where
  startCol : Nat
  startRow : Nat
  endCol : Nat
  endRow : Nat
deriving DecidableEq, Repr

/-- `SelectionManager.normalizeSelection` on a concrete pair of endpoints:
swap the two endpoints when the selection goes backwards, i.e. when
`startRow > endRow` or the rows are equal and `startCol > endCol`. -/
def normalizeSelection (s e : CellPos) : SelectionCoordinates :=
  if s.row > e.row ∨ (s.row = e.row ∧ s.col > e.col) then
    ⟨e.col, e.row, s.col, s.row⟩
  else
    ⟨s.col, s.row, e.col, e.row⟩

/-- The contribution of one cell lookup inside `getSelection`'s column loop:
a missing cell or a width-0 padding cell is skipped, a codepoint-0 cell
yields a single space, any other cell yields its codepoint. -/
def extractCell (cells : Line) (col : Nat) : List Nat :=
  match cells[col]? with
  | none => []
  | some c => if c.width = 0 then [] else if c.codepoint ≠ 0 then [c.codepoint] else [32]

/-- `getSelection`'s inner `for (col = colStart; col <= colEnd; col++)` loop,
written head-first with an explicit iteration count. -/
def colLoop (cells : Line) (col : Nat) : Nat → List Nat
  | 0 => []
  | fuel + 1 => extractCell cells col ++ colLoop cells (col + 1) fuel

/-- The cells appended for columns `colStart..colEnd` of one row.
(In the source `colEnd` is `line.length - 1` for non-final rows; for an
empty line JS computes `-1` and runs zero iterations, while truncated
subtraction gives `0` and one iteration on a missing cell — both produce
the empty string.) -/
def extractRowRange (cells : Line) (colStart colEnd : Nat) : List Nat :=
  colLoop cells colStart (colEnd + 1 - colStart)

/-- One iteration of `getSelection`'s row loop: look the row up, skip it
silently when the state machine has no line for it, otherwise extract the
row-bounded column range and append the `\n` that the source adds after
every row but the last (`if (row < endRow)`). -/
def rowPiece (buf : Buffer) (c : SelectionCoordinates) (row : Nat) : List Nat :=
  match getLine buf row with
  | none => []
  | some cells =>
    let colStart := if row = c.startRow then c.startCol else 0
    let colEnd := if row = c.endRow then c.endCol else cells.length - 1
    extractRowRange cells colStart colEnd ++ (if row < c.endRow then [10] else [])

/-- `getSelection`'s outer `for (row = startRow; row <= endRow; row++)` loop,
head-first with an explicit iteration count. -/
def selLoop (buf : Buffer) (c : SelectionCoordinates) (row : Nat) : Nat → List Nat
  | 0 => []
  | fuel + 1 => rowPiece buf c row ++ selLoop buf c (row + 1) fuel

/-- `SelectionManager.getSelection` applied to already-normalized
coordinates: the extracted text of rows `startRow..endRow`. -/
def selectedTextOfCoords (buf : Buffer) (c : SelectionCoordinates) : List Nat :=
  selLoop buf c c.startRow (c.endRow + 1 - c.startRow)

/-- `SelectionManager.getSelection` for an active selection with endpoints
`s` (selectionStart) and `e` (selectionEnd): normalize, then extract. -/
def getSelectionOf (buf : Buffer) (s e : CellPos) : List Nat :=
  selectedTextOfCoords buf (normalizeSelection s e)

/-- The mutable selection state of SelectionManager. -/
structure SelMgrState where
  selectionStart : Option CellPos
  selectionEnd : Option CellPos
  isSelecting : Bool
  previousSelection : Option SelectionCoordinates
deriving DecidableEq, Repr

/-- The state right after construction: no selection. -/
def initSelMgr : SelMgrState :=
  { selectionStart := none, selectionEnd := none, isSelecting := false,
    previousSelection := none }

/-- `SelectionManager.normalizeSelection` (returns null without an active
selection). -/
def normalizeSelectionS (st : SelMgrState) : Option SelectionCoordinates :=
  match st.selectionStart, st.selectionEnd with
  | some s, some e => some (normalizeSelection s e)
  | _, _ => none

/-- `SelectionManager.hasSelection`. -/
def hasSelectionS (st : SelMgrState) : Bool :=
  st.selectionStart.isSome && st.selectionEnd.isSome

/-- `SelectionManager.getSelection` on the manager state: empty string when
no selection is active. -/
def getSelectionS (buf : Buffer) (st : SelMgrState) : List Nat :=
  match normalizeSelectionS st with
  | none => []
  | some c => selectedTextOfCoords buf c

/-- `SelectionManager.clearSelection`: early-returns without a selection,
otherwise remembers the normalized bounds for highlight clearing and drops
both endpoints. -/
def clearSelectionS (st : SelMgrState) : SelMgrState :=
  if hasSelectionS st then
    { selectionStart := none, selectionEnd := none, isSelecting := false,
      previousSelection := normalizeSelectionS st }
  else st

/-- `SelectionManager.selectAll`: anchor at `{col: 0, row: 0}`, focus at
`{col: dims.cols - 1, row: dims.rows - 1}` where `dims` are the state
machine's terminal dimensions (`wasmTerm.getDimensions()`), i.e. the screen
grid size, not the total number of absolute rows. -/
def selectAllS (cols rows : Nat) (st : SelMgrState) : SelMgrState :=
  { st with selectionStart := some ⟨0, 0⟩, selectionEnd := some ⟨cols - 1, rows - 1⟩ }

/-- `SelectionManager.pixelToCell`: floor-divide the pixel coordinates by
the glyph metrics and clamp to the terminal grid `[0, cols-1] × [0, rows-1]`.
The result is a viewport-relative cell; no viewport offset or scrollback
length enters the computation. -/
def pixelToCell (cellW cellH cols rows x y : Nat) : CellPos :=
  ⟨min (x / cellW) (cols - 1), min (y / cellH) (rows - 1)⟩

/-- The mousedown handler for a left click: convert the pixel position to a
cell, clear any previous selection, and start a new one with anchor = focus
= that cell. -/
def mouseDown (cellW cellH cols rows x y : Nat) (st : SelMgrState) : SelMgrState :=
  let cell := pixelToCell cellW cellH cols rows x y
  let st := if hasSelectionS st then clearSelectionS st else st
  { st with selectionStart := some cell, selectionEnd := some cell, isSelecting := true }

/-- The mousemove handler while dragging: update the focus endpoint only. -/
def mouseMove (cellW cellH cols rows x y : Nat) (st : SelMgrState) : SelMgrState :=
  if st.isSelecting then
    { st with selectionEnd := some (pixelToCell cellW cellH cols rows x y) }
  else st

/-! ### Word selection (`getWordAtCell`) -/

/-- The JS word-character test `/[\w-]/.test(String.fromCodePoint(cp))`:
without the unicode flag, the class matches exactly the ASCII letters,
digits, underscore and hyphen (a non-ASCII codepoint produces a character,
or a surrogate pair, outside the class). -/
def isWordCp (cp : Nat) : Bool :=
  (65 ≤ cp && cp ≤ 90) || (97 ≤ cp && cp ≤ 122) ||
    (48 ≤ cp && cp ≤ 57) || cp = 95 || cp = 45

/-- The `isWordChar` closure of `getWordAtCell` applied to `line[col]`:
false for a missing cell, false for codepoint 0, otherwise the regex test. -/
def isWordCharAt (cells : Line) (col : Nat) : Bool :=
  match cells[col]? with
  | none => false
  | some c => c.codepoint != 0 && isWordCp c.codepoint

/-- `getWordAtCell`'s left scan:
`while (startCol > 0 && isWordChar(line[startCol - 1])) startCol--`. -/
def scanLeft (cells : Line) : Nat → Nat
  | 0 => 0
  | c + 1 => if isWordCharAt cells c then scanLeft cells c else c + 1

/-- `getWordAtCell`'s right scan:
`while (endCol < line.length - 1 && isWordChar(line[endCol + 1])) endCol++`. -/
def scanRight (cells : Line) (c : Nat) : Nat :=
  if h : c + 1 < cells.length ∧ isWordCharAt cells (c + 1) = true then
    scanRight cells (c + 1)
  else c
termination_by cells.length - c
decreasing_by omega

/-- `SelectionManager.getWordAtCell`: nothing when the row has no line or
the target cell is not a word character; otherwise the maximal word span
found by the two scans. -/
def getWordAtCell (buf : Buffer) (col row : Nat) : Option (Nat × Nat) :=
  match getLine buf row with
  | none => none
  | some cells =>
    if isWordCharAt cells col then some (scanLeft cells col, scanRight cells col)
    else none

/-- The dblclick handler's effect on the selection state: a word hit yields
a single-row selection over the word span, a miss leaves the state alone. -/
def selectWord (buf : Buffer) (col row : Nat) (st : SelMgrState) : SelMgrState :=
  match getWordAtCell buf col row with
  | none => st
  | some (s, e) =>
    { st with selectionStart := some ⟨s, row⟩, selectionEnd := some ⟨e, row⟩ }

/-! ### Clipboard (`copyToClipboard`, `copyToClipboardFallback`) -/

/-- The browser clipboard facilities as seen by the manager: whether the
asynchronous Clipboard API exists and whether its write resolves, whether
building/using the hidden textarea throws, and what `execCommand('copy')`
returns. -/
structure ClipboardEnv where
  primaryAvailable : Bool
  primarySucceeds : Bool
  fallbackThrows : Bool
  execCommandSucceeds : Bool
deriving DecidableEq, Repr

/-- What a copy attempt ended up doing (every branch only logs). -/
inductive CopyOutcome where
  | emptyText
  | copiedPrimary
  | copiedFallback
  | copyFailedLogged
  | fallbackErrorLogged
deriving DecidableEq, Repr

/-- The body of `copyToClipboardFallback` before its `try`/`catch`: throws
when DOM manipulation throws, otherwise reports `execCommand`'s result. -/
def copyFallbackRaw (env : ClipboardEnv) : Except String Bool :=
  if env.fallbackThrows then .error "fallback copy failed"
  else .ok env.execCommandSucceeds

/-- `copyToClipboardFallback`: the `catch` turns any failure into a logged
message, so the call itself always returns normally. -/
def copyToClipboardFallback (env : ClipboardEnv) : Except String CopyOutcome :=
  match copyFallbackRaw env with
  | .error _ => .ok .fallbackErrorLogged
  | .ok true => .ok .copiedFallback
  | .ok false => .ok .copyFailedLogged

/-- `copyToClipboard`: early-returns on empty text; tries the Clipboard API
when available and falls back (via the promise `.catch`) when its write
fails; uses the fallback directly when the API is unavailable. -/
def copyToClipboard (env : ClipboardEnv) (text : List Nat) : Except String CopyOutcome :=
  if text = [] then .ok .emptyText
  else if env.primaryAvailable then
    if env.primarySucceeds then .ok .copiedPrimary
    else copyToClipboardFallback env
  else copyToClipboardFallback env

/-- The mouseup handler that finalizes a drag selection: extract the text
and, when it is non-empty, copy it to the clipboard. -/
def mouseUp (buf : Buffer) (env : ClipboardEnv) (st : SelMgrState) :
    Except String SelMgrState :=
  if st.isSelecting then
    let st := { st with isSelecting := false }
    let text := getSelectionS buf st
    if text ≠ [] then
      match copyToClipboard env text with
      | .error e => .error e
      | .ok _ => .ok st
    else .ok st
  else .ok st

/-! ### Terminal facade (terminal.ts) -/

/-- The facade state relevant to lifecycle and selection claims. The
components created by `open` are represented by the selection-manager state
(present iff the components exist); addons are identifiers whose `dispose`
calls are logged in `addonsDisposed`; `wasmWrites` records the data applied
to the external state machine in order. -/
structure TermState where
  isOpen : Bool
  isDisposed : Bool
  selectionManager : Option SelMgrState
  animationFrameId : Option Nat
  addons : List Nat
  addonsDisposed : List Nat
  emittersDisposed : Bool
  wasmWrites : List (List Nat)
deriving DecidableEq, Repr

/-- A freshly constructed terminal: nothing is open, no components exist. -/
def newTerminal : TermState :=
  { isOpen := false, isDisposed := false, selectionManager := none,
    animationFrameId := none, addons := [], addonsDisposed := [],
    emittersDisposed := false, wasmWrites := [] }

/-- `Terminal.assertOpen`: throws `Terminal must be opened …` when not open,
then `Terminal has been disposed` when disposed. -/
def assertOpen (st : TermState) : Except String Unit :=
  if st.isOpen = false then
    .error "Terminal must be opened before use. Call terminal.open(parent) first."
  else if st.isDisposed then .error "Terminal has been disposed"
  else .ok ()

/-- `Terminal.open`: throws on an already-open or disposed terminal,
otherwise creates the components (here: the selection manager), marks the
terminal open and starts the render loop. -/
def openTerminal (st : TermState) : Except String TermState :=
  if st.isOpen then .error "Terminal is already open"
  else if st.isDisposed then .error "Terminal has been disposed"
  else
    .ok { st with isOpen := true, selectionManager := some initSelMgr,
                  animationFrameId := some 0 }

/-- `Terminal.write`: assert the terminal is open, clear any active
selection, then hand the data to the external state machine. -/
def write (st : TermState) (data : List Nat) : Except String TermState :=
  match assertOpen st with
  | .error e => .error e
  | .ok _ =>
    let st :=
      if (st.selectionManager.map hasSelectionS).getD false then
        { st with selectionManager := st.selectionManager.map clearSelectionS }
      else st
    .ok { st with wasmWrites := st.wasmWrites ++ [data] }

/-- `Terminal.getSelection`: `this.selectionManager?.getSelection() || ''` —
optional chaining, no `assertOpen`, never a thrown error. -/
def getSelectionT (buf : Buffer) (st : TermState) : Except String (List Nat) :=
  .ok (match st.selectionManager with
       | none => []
       | some m => getSelectionS buf m)

/-- `Terminal.hasSelection`: `this.selectionManager?.hasSelection() || false`. -/
def hasSelectionT (st : TermState) : Except String Bool :=
  .ok (match st.selectionManager with
       | none => false
       | some m => hasSelectionS m)

/-- `Terminal.clearSelection`: `this.selectionManager?.clearSelection()`. -/
def clearSelectionT (st : TermState) : Except String TermState :=
  .ok { st with selectionManager := st.selectionManager.map clearSelectionS }

/-- `Terminal.selectAll`: `this.selectionManager?.selectAll()` on the state
machine's screen dimensions. -/
def selectAllT (cols rows : Nat) (st : TermState) : Except String TermState :=
  .ok { st with selectionManager := st.selectionManager.map (selectAllS cols rows) }

/-- `Terminal.dispose`: early-returns on a second call; otherwise marks the
terminal disposed and closed, cancels the animation frame, disposes every
addon, tears the components down and disposes the event emitters. -/
def dispose (st : TermState) : TermState :=
  if st.isDisposed then st
  else
    { isOpen := false, isDisposed := true, selectionManager := none,
      animationFrameId := none, addons := [],
      addonsDisposed := st.addonsDisposed ++ st.addons,
      emittersDisposed := true, wasmWrites := st.wasmWrites }

/-! ### Viewport scrolling

The ViewportCoordinator scroll operations the spec describes (`scrollBy`,
`scrollToTop`, `scrollToBottom`, the fractional offset) live in files of the
repository that are not part of src/ — only the test suite that exercises
them via `term.scrollLines` / `term.viewportY` is. They are modelled from
the spec below. -/

/-- Modelled from the spec: the ViewportCoordinator's `scrollBy(deltaRows)`
(the repository file holding it is missing from src/) "clamps the resulting
offset to `[0, scrollbackLength]`; supports fractional deltas". -/
def scrollBy (scrollbackLength : Nat) (offset delta : Rat) : Rat :=
  max 0 (min (offset + delta) (scrollbackLength : Rat))

/-- Modelled from the spec: `scrollToTop` sets the offset to
`scrollbackLength`. -/
def scrollToTop (scrollbackLength : Nat) : Rat := (scrollbackLength : Rat)

/-- Modelled from the spec: `scrollToBottom` sets the offset to 0. -/
def scrollToBottom : Rat := 0

/-- Scrolling as a facade operation: it only updates the offset and has no
failure branch. -/
def scrollByT (scrollbackLength : Nat) (offset delta : Rat) : Except String Rat :=
  .ok (scrollBy scrollbackLength offset delta)

/-! ### The spec's description of text extraction

These definitions follow the wording of the specification (`getSelectedText`),
to be compared against the code-derived `selectedTextOfCoords`. -/

/-- Following the spec's words: "skip width-0 padding cells, append the
cell's character or a single space for an empty (codepoint 0) cell". -/
def specCellText (c : GhosttyCell) : List Nat :=
  if c.width = 0 then [] else if c.codepoint = 0 then [32] else [c.codepoint]

/-- Following the spec's words: the characters of the cells of one row in
the column range `colStart..colEnd` (columns beyond the line contribute
nothing). -/
def specRowText (cells : Line) (colStart colEnd : Nat) : List Nat :=
  ((cells.drop colStart).take (colEnd + 1 - colStart)).flatMap specCellText

/-- Following the spec's words: "join rows with `\n` except no trailing
newline after the last row". -/
def joinLines : List (List Nat) → List Nat
  | [] => []
  | [l] => l
  | l :: l2 :: ls => l ++ 10 :: joinLines (l2 :: ls)

/-- Following the spec's words: one row's text when the state machine has a
line for it — the first row starts at `startCol`, the last row ends at
`endCol`, middle rows span the full row. -/
def specRowOf (buf : Buffer) (c : SelectionCoordinates) (row : Nat) :
    Option (List Nat) :=
  (getLine buf row).map (fun cells =>
    specRowText cells (if row = c.startRow then c.startCol else 0)
      (if row = c.endRow then c.endCol else cells.length - 1))

/-- Following the spec's words: for each absolute row of `[startRow, endRow]`
for which the state machine has a line, the row-bounded column range, the
rows joined with a newline; a row with no line is skipped. -/
def specSelectedText (buf : Buffer) (c : SelectionCoordinates) : List Nat :=
  joinLines (((List.range' c.startRow (c.endRow + 1 - c.startRow)).map
    (specRowOf buf c)).reduceOption)

/-! ### Concrete scenario inputs -/

/-- The cells of the text `Line NNN` (three zero-padded decimal digits),
each one column wide, as the scenario writes them. -/
def mkLineCells (i : Nat) : Line :=
  ([76, 105, 110, 101, 32] ++
    [48 + i / 100 % 10, 48 + i / 10 % 10, 48 + i % 10]).map (fun cp => ⟨cp, 1⟩)

/-- The codepoints of the text `Line NNN`. -/
def lineText (i : Nat) : List Nat :=
  (mkLineCells i).flatMap specCellText

/-- The scenario buffer: 100 written lines `Line 000` … `Line 099` followed
by the blank cursor row, so the scrollback holds 77 rows and the 24-row
screen shows the rest. -/
def scenarioBuffer : Buffer :=
  (List.range 100).map mkLineCells ++ [[]]

/-- The drag selection of the scenario: mousedown on viewport row 5 column 0
and mousemove to viewport row 7 column 20, with 9×16 pixel glyphs on an
80×24 grid (the terminal is scrolled up by 50 rows, which `pixelToCell`
never consults). -/
def scenarioSelection : SelMgrState :=
  mouseMove 9 16 80 24 (20 * 9) (7 * 16)
    (mouseDown 9 16 80 24 0 (5 * 16) initSelMgr)

/-- A small buffer with scrollback for the select-all scenario: 30 absolute
rows on a 24-row screen, row `i` holding the single marker codepoint
`65 + i`. -/
def selectAllBuffer : Buffer :=
  (List.range 30).map (fun i => [⟨65 + i, 1⟩])

/-- A concrete line holding the word `hello` for the word-selection
witness. -/
def wordLine : Line :=
  [⟨104, 1⟩, ⟨101, 1⟩, ⟨108, 1⟩, ⟨108, 1⟩, ⟨111, 1⟩]

/-- A one-row buffer holding `wordLine`. -/
def wordBuffer : Buffer := [wordLine]

/-- An open terminal holding the scenario's drag selection, about to
receive a write. -/
def openSelTerm : TermState :=
  { isOpen := true, isDisposed := false,
    selectionManager := some scenarioSelection, animationFrameId := some 0,
    addons := [], addonsDisposed := [], emittersDisposed := false,
    wasmWrites := [] }

/-! ## Helper lemmas -/

/-- Clearing always leaves the manager without an active selection. -/
theorem hasSelection_clearSelection (m : SelMgrState) :
    hasSelectionS (clearSelectionS m) = false := by
  unfold clearSelectionS
  by_cases h : hasSelectionS m = true
  · rw [if_pos h]; rfl
  · rw [if_neg h]; simpa using h

/-- `copyToClipboard` always returns normally. -/
theorem copyToClipboard_ok (env : ClipboardEnv) (text : List Nat) :
    ∃ r, copyToClipboard env text = .ok r := by
  unfold copyToClipboard copyToClipboardFallback copyFallbackRaw
  by_cases h0 : text = [] <;>
    by_cases h1 : env.primaryAvailable = true <;>
      by_cases h2 : env.primarySucceeds = true <;>
        by_cases h3 : env.fallbackThrows = true <;>
          by_cases h4 : env.execCommandSucceeds = true <;>
            simp [h0, h1, h2, h3, h4]

/-- The code's column loop computes exactly the spec's per-cell texts of
the cells `col`, `col+1`, … present in the line. -/
theorem colLoop_eq_spec (cells : Line) :
    ∀ (n col : Nat), colLoop cells col n =
      ((cells.drop col).take n).flatMap specCellText := by
  intro n
  induction n with
  | zero => intro col; simp [colLoop]
  | succ k ih =>
    intro col
    rw [colLoop, ih (col + 1)]
    cases hd : cells.drop col with
    | nil =>
      have h1 : cells.length ≤ col := by
        by_contra hlt
        push_neg at hlt
        have hne := List.drop_eq_nil_iff.mp hd
        omega
      have h2 : cells.drop (col + 1) = [] := List.drop_eq_nil_of_le (by omega)
      have h3 : cells[col]? = none := List.getElem?_eq_none h1
      simp [extractCell, h3, h2]
    | cons a rest =>
      have hget : cells[col]? = some a := by
        have h0 : (cells.drop col)[0]? = cells[col + 0]? :=
          List.getElem?_drop cells col 0
        rw [hd] at h0
        simpa using h0.symm
      have hrest : cells.drop (col + 1) = rest := by
        have h0 : (cells.drop col).drop 1 = cells.drop (col + 1) :=
          List.drop_drop 1 col cells
        rw [hd] at h0
        simpa using h0.symm
      have hcell : extractCell cells col = specCellText a := by
        by_cases hw : a.width = 0 <;> by_cases hc : a.codepoint = 0 <;>
          simp [extractCell, specCellText, hget, hw, hc]
      rw [hrest, hcell]
      simp

/-- The code's row-bounded column range equals the spec's row text. -/
theorem extractRowRange_eq_spec (cells : Line) (colStart colEnd : Nat) :
    extractRowRange cells colStart colEnd = specRowText cells colStart colEnd := by
  unfold extractRowRange specRowText
  exact colLoop_eq_spec cells (colEnd + 1 - colStart) colStart

/-- Rows entirely past the end of the buffer contribute nothing: the code
skips them silently. -/
theorem selLoop_out_of_range (buf : Buffer) (c : SelectionCoordinates) :
    ∀ (k row : Nat), buf.length ≤ row → selLoop buf c row k = [] := by
  intro k
  induction k with
  | zero => intro row h; rfl
  | succ k ih =>
    intro row h
    have hnone : getLine buf row = none := by
      unfold getLine
      exact List.getElem?_eq_none h
    rw [selLoop, ih (row + 1) (by omega)]
    simp [rowPiece, hnone]

/-- Splitting the spec's newline join at a head row. -/
theorem joinLines_cons (x : List Nat) (l : List (List Nat)) (h : l ≠ []) :
    joinLines (x :: l) = x ++ 10 :: joinLines l := by
  cases l with
  | nil => exact absurd rfl h
  | cons y t => rfl

/-- When every row of the remaining range is present, the code's row loop
computes the spec's newline join of the rows' texts. -/
theorem selLoop_eq_spec (buf : Buffer) (c : SelectionCoordinates) :
    ∀ (k row : Nat), row + k = c.endRow + 1 →
      (∀ j, row ≤ j → j ≤ c.endRow → j < buf.length) →
      selLoop buf c row k =
        joinLines (((List.range' row k).map (specRowOf buf c)).reduceOption) := by
  intro k
  induction k with
  | zero => intro row hk hp; rfl
  | succ k ih =>
    intro row hk hp
    have hrowle : row ≤ c.endRow := by omega
    have hrow : row < buf.length := hp row le_rfl hrowle
    obtain ⟨cells, hline⟩ : ∃ l, getLine buf row = some l := by
      unfold getLine
      rcases h : buf[row]? with _ | l
      · exact absurd (List.getElem?_eq_none_iff.mp h) (by omega)
      · exact ⟨l, rfl⟩
    have hpiece : rowPiece buf c row =
        specRowText cells (if row = c.startRow then c.startCol else 0)
          (if row = c.endRow then c.endCol else cells.length - 1) ++
          (if row < c.endRow then [10] else []) := by
      simp only [rowPiece, hline, extractRowRange_eq_spec]
    have hspecsome : specRowOf buf c row =
        some (specRowText cells (if row = c.startRow then c.startCol else 0)
          (if row = c.endRow then c.endCol else cells.length - 1)) := by
      simp [specRowOf, hline]
    rw [List.range'_succ, List.map_cons, hspecsome,
      List.reduceOption_cons_of_some, selLoop, hpiece]
    cases k with
    | zero =>
      have hre : row = c.endRow := by omega
      simp [selLoop, joinLines, hre]
    | succ k2 =>
      have hlt : row < c.endRow := by omega
      have hrow1 : row + 1 < buf.length := hp (row + 1) (by omega) (by omega)
      obtain ⟨line2, hline2⟩ : ∃ l, getLine buf (row + 1) = some l := by
        unfold getLine
        rcases h : buf[row + 1]? with _ | l
        · exact absurd (List.getElem?_eq_none_iff.mp h) (by omega)
        · exact ⟨l, rfl⟩
      have hne : ((List.range' (row + 1) (k2 + 1)).map (specRowOf buf c)).reduceOption
          ≠ [] := by
        rw [List.range'_succ, List.map_cons]
        have hsome2 : specRowOf buf c (row + 1) =
            some (specRowText line2 (if row + 1 = c.startRow then c.startCol else 0)
              (if row + 1 = c.endRow then c.endCol else line2.length - 1)) := by
          simp [specRowOf, hline2]
        rw [hsome2, List.reduceOption_cons_of_some]
        simp
      rw [joinLines_cons _ _ hne,
        ih (row + 1) (by omega) (fun j hj1 hj2 => hp j (by omega) hj2)]
      simp [hlt]

/-- A position past the line is never a word character. -/
theorem isWordCharAt_out (cells : Line) (j : Nat) (h : cells.length ≤ j) :
    isWordCharAt cells j = false := by
  unfold isWordCharAt
  rw [List.getElem?_eq_none h]

/-- A word character lies within the line. -/
theorem isWordCharAt_lt (cells : Line) (j : Nat)
    (h : isWordCharAt cells j = true) : j < cells.length := by
  by_contra hle
  push_neg at hle
  rw [isWordCharAt_out cells j hle] at h
  exact Bool.false_ne_true h

/-- The left scan never moves right. -/
theorem scanLeft_le (cells : Line) : ∀ c, scanLeft cells c ≤ c := by
  intro c
  induction c with
  | zero => exact le_rfl
  | succ c ih =>
    rw [scanLeft]
    by_cases h : isWordCharAt cells c = true
    · rw [if_pos h]; omega
    · rw [if_neg h]

/-- Every column strictly between the left scan's result and its start is a
word character. -/
theorem scanLeft_word (cells : Line) :
    ∀ c j, scanLeft cells c ≤ j → j < c → isWordCharAt cells j = true := by
  intro c
  induction c with
  | zero => intro j h1 h2; exact absurd h2 (Nat.not_lt_zero j)
  | succ c ih =>
    intro j h1 h2
    by_cases h : isWordCharAt cells c = true
    · rw [scanLeft, if_pos h] at h1
      rcases Nat.lt_or_ge j c with hj | hj
      · exact ih j h1 hj
      · have hjc : j = c := by omega
        rwa [hjc]
    · rw [scanLeft, if_neg h] at h1
      omega

/-- Left of the left scan's result sits a non-word cell, unless it stopped
at column 0. -/
theorem scanLeft_boundary (cells : Line) :
    ∀ c, scanLeft cells c = 0 ∨
      isWordCharAt cells (scanLeft cells c - 1) = false := by
  intro c
  induction c with
  | zero => exact Or.inl rfl
  | succ c ih =>
    by_cases h : isWordCharAt cells c = true
    · rw [scanLeft, if_pos h]
      exact ih
    · rw [scanLeft, if_neg h]
      right
      simpa using h

/-- From any column of a word run whose left boundary is `s`, the left scan
stops exactly at `s`. -/
theorem scanLeft_eq_of (cells : Line) :
    ∀ c s, s ≤ c → (s = 0 ∨ isWordCharAt cells (s - 1) = false) →
      (∀ j, s ≤ j → j < c → isWordCharAt cells j = true) →
      scanLeft cells c = s := by
  intro c
  induction c with
  | zero =>
    intro s h1 _ _
    have hs0 : s = 0 := by omega
    rw [hs0]
    rfl
  | succ c ih =>
    intro s h1 h2 h3
    rcases Nat.lt_or_ge c s with hcs | hcs
    · have hs : s = c + 1 := by omega
      subst hs
      have hw : isWordCharAt cells c = false := by
        rcases h2 with h2 | h2
        · exact absurd h2 (Nat.succ_ne_zero c)
        · simpa using h2
      rw [scanLeft, if_neg (by simp [hw])]
    · have hw : isWordCharAt cells c = true := h3 c hcs (by omega)
      rw [scanLeft, if_pos hw]
      exact ih s hcs h2 (fun j hj1 hj2 => h3 j hj1 (by omega))

/-- The right scan never moves left. -/
theorem scanRight_ge (cells : Line) (c : Nat) : c ≤ scanRight cells c := by
  induction c using scanRight.induct cells with
  | case1 c h ih =>
    rw [scanRight, dif_pos h]
    omega
  | case2 c h =>
    rw [scanRight, dif_neg h]

/-- Every column strictly between the right scan's start and its result is
a word character. -/
theorem scanRight_word (cells : Line) (c : Nat) :
    ∀ j, c < j → j ≤ scanRight cells c → isWordCharAt cells j = true := by
  induction c using scanRight.induct cells with
  | case1 c h ih =>
    intro j h1 h2
    rw [scanRight, dif_pos h] at h2
    rcases Nat.lt_or_ge (c + 1) j with hj | hj
    · exact ih j hj h2
    · have hjc : j = c + 1 := by omega
      rw [hjc]
      exact h.2
  | case2 c h =>
    intro j h1 h2
    rw [scanRight, dif_neg h] at h2
    exact absurd h2 (by omega)

/-- Right of the right scan's result sits a non-word cell (also when the
scan stopped at the line's last cell, where the lookup is empty). -/
theorem scanRight_boundary (cells : Line) (c : Nat) :
    isWordCharAt cells (scanRight cells c + 1) = false := by
  induction c using scanRight.induct cells with
  | case1 c h ih =>
    rw [scanRight, dif_pos h]
    exact ih
  | case2 c h =>
    rw [scanRight, dif_neg h]
    rcases Nat.lt_or_ge (c + 1) cells.length with hlt | hge
    · by_contra hw
      rw [Bool.not_eq_false] at hw
      exact h ⟨hlt, hw⟩
    · exact isWordCharAt_out cells (c + 1) hge

/-- From any column of a word run whose right boundary is `e`, the right
scan stops exactly at `e`. -/
theorem scanRight_eq_of (cells : Line) (c e : Nat) :
    c ≤ e → isWordCharAt cells (e + 1) = false →
      (∀ j, c < j → j ≤ e → isWordCharAt cells j = true) →
      scanRight cells c = e := by
  induction c using scanRight.induct cells with
  | case1 c h ih =>
    intro h1 h2 h3
    rcases Nat.lt_or_ge c e with hce | hce
    · rw [scanRight, dif_pos h]
      exact ih (by omega) h2 (fun j hj1 hj2 => h3 j (by omega) hj2)
    · have hc : c = e := by omega
      subst hc
      exact absurd h.2 (by simp [h2])
  | case2 c h =>
    intro h1 h2 h3
    rcases Nat.lt_or_ge c e with hce | hce
    · have hw : isWordCharAt cells (c + 1) = true := h3 (c + 1) (by omega) (by omega)
      exact absurd ⟨isWordCharAt_lt cells (c + 1) hw, hw⟩ h
    · have hc : c = e := by omega
      rw [scanRight, dif_neg h, hc]

/-! ## Claim theorems -/

/-- **C1.** The claim says pointer selections made while the viewport is
scrolled have their rows converted to absolute buffer rows by
`absolute = scrollbackLength - floor(viewportOffset) + viewportRow` before
text extraction, so that the 100-line scenario (24 rows, offset 50,
viewport rows 5–7) yields `Line 032`…`Line 034`. The code's `pixelToCell`
performs no such conversion — the resulting endpoints keep viewport rows 5
and 7 — and `getSelection` feeds them directly to the absolute-indexed
`getLine`, so the extracted text is `Line 005`…`Line 007` instead of the
`Line 032`…`Line 034` the claim (and the repository's own test suite)
requires. -/
theorem c1_pixel_selection_rows_not_converted :
    scenarioSelection.selectionStart = some ⟨0, 5⟩ ∧
    scenarioSelection.selectionEnd = some ⟨20, 7⟩ ∧
    getSelectionS scenarioBuffer scenarioSelection =
      lineText 5 ++ 10 :: lineText 6 ++ 10 :: lineText 7 ∧
    (getSelectionS scenarioBuffer scenarioSelection ==
      lineText 32 ++ 10 :: lineText 33 ++ 10 :: lineText 34) = false := by
  refine ⟨rfl, rfl, by decide, by decide⟩

/-- **C2.** For a normalized selection, `getSelection` returns exactly what
the spec describes: per row the row-bounded column range (first row from
`startCol`, last row to `endCol`, middle rows the full row), width-0 cells
skipped, codepoint-0 cells as single spaces, rows joined by a newline with
none after the last — whenever every row of the range is in the buffer
(which holds for every selection the program creates) — and a range lying
wholly outside the buffer is skipped silently, yielding the empty string. -/
theorem c2_getSelection_matches_spec (buf : Buffer) (c : SelectionCoordinates)
    (hord : c.startRow ≤ c.endRow) :
    (c.endRow < buf.length →
      selectedTextOfCoords buf c = specSelectedText buf c) ∧
    (buf.length ≤ c.startRow → selectedTextOfCoords buf c = []) := by
  constructor
  · intro hlen
    unfold selectedTextOfCoords specSelectedText
    exact selLoop_eq_spec buf c (c.endRow + 1 - c.startRow) c.startRow (by omega)
      (fun j hj1 hj2 => by omega)
  · intro hlen
    unfold selectedTextOfCoords
    exact selLoop_out_of_range buf c _ _ hlen

/-- **C2 witness.** The extraction/spec agreement evaluated on the concrete
30-row marker buffer with the normalized selection (0,1)–(2,3). -/
theorem c2_getSelection_matches_spec_witness :
    ((⟨1, 0, 3, 2⟩ : SelectionCoordinates).endRow < selectAllBuffer.length →
      selectedTextOfCoords selectAllBuffer ⟨1, 0, 3, 2⟩ =
        specSelectedText selectAllBuffer ⟨1, 0, 3, 2⟩) ∧
    (selectAllBuffer.length ≤ (⟨1, 0, 3, 2⟩ : SelectionCoordinates).startRow →
      selectedTextOfCoords selectAllBuffer ⟨1, 0, 3, 2⟩ = []) :=
  c2_getSelection_matches_spec selectAllBuffer ⟨1, 0, 3, 2⟩ (by decide)

/-- **C3.** The claim says `selectAll` sets the focus to the last column of
the last absolute row of the whole buffer (`totalAbsoluteRows - 1`), so the
selection spans every written row including scrollback. The code instead
uses the state machine's screen dimensions (`getDimensions().rows - 1`):
on a 24-row screen over a 30-row buffer the focus lands on absolute row 23,
and the extracted text misses the marker of absolute row 29 entirely. -/
theorem c3_selectAll_stops_at_screen_rows :
    (selectAllS 80 24 initSelMgr).selectionEnd = some ⟨79, 23⟩ ∧
    selectAllBuffer.length = 30 ∧
    getLine selectAllBuffer 29 = some [⟨94, 1⟩] ∧
    (getSelectionS selectAllBuffer (selectAllS 80 24 initSelMgr)).contains 94
      = false := by
  refine ⟨rfl, by decide, by decide, by decide⟩

/-- **C4 counterexample.** On a freshly constructed terminal (before
`open`), the selection API does not deliver a thrown error: `getSelection`
silently returns the empty string, `hasSelection` returns `false`, and
`clearSelection`/`selectAll` are silent no-ops, refuting the claim that
every operation invoked before `open` produces an explicit failure. -/
theorem c4_selection_api_silent_before_open :
    newTerminal.isOpen = false ∧
    getSelectionT [] newTerminal = .ok [] ∧
    hasSelectionT newTerminal = .ok false ∧
    clearSelectionT newTerminal = .ok newTerminal ∧
    selectAllT 80 24 newTerminal = .ok newTerminal :=
  ⟨rfl, rfl, rfl, rfl, rfl⟩

/-- **C4 (amended).** Operations guarded by `assertOpen` (such as `write`)
do fail with a thrown error before `open` and after `dispose`; the selection
API (`getSelection`, `hasSelection`, `clearSelection`, `selectAll`) instead
uses optional chaining, so before `open` (no selection manager) it silently
returns the empty string / `false` or no-ops, and it never throws in any
state. -/
theorem c4_assertOpen_guards_write_not_selection (buf : Buffer) (st : TermState)
    (data : List Nat) (cols rows : Nat) :
    (st.isOpen = false → write st data =
      .error "Terminal must be opened before use. Call terminal.open(parent) first.") ∧
    (st.isDisposed = true → ∃ msg, write st data = .error msg) ∧
    (st.selectionManager = none →
      getSelectionT buf st = .ok [] ∧ hasSelectionT st = .ok false ∧
      clearSelectionT st = .ok st ∧ selectAllT cols rows st = .ok st) ∧
    (∃ r, getSelectionT buf st = .ok r) ∧
    (∃ r, hasSelectionT st = .ok r) ∧
    (∃ r, clearSelectionT st = .ok r) ∧
    (∃ r, selectAllT cols rows st = .ok r) := by
  refine ⟨fun h => ?_, fun h => ?_, fun h => ?_, ⟨_, rfl⟩, ⟨_, rfl⟩, ⟨_, rfl⟩, ⟨_, rfl⟩⟩
  · simp [write, assertOpen, h]
  · cases hOpen : st.isOpen <;> simp [write, assertOpen, hOpen, h]
  · obtain ⟨o, d, sm, a, ad, adl, e, w⟩ := st
    cases hOpen : sm <;> simp_all [getSelectionT, hasSelectionT,
      clearSelectionT, selectAllT]

/-- **C5.** A selection whose focus precedes its anchor extracts exactly the
same text as the selection with the endpoints exchanged: normalization is
symmetric in the two endpoints (swapping when `startRow > endRow`, or when
the rows are equal and `startCol > endCol`), `getSelection` only consumes
the normalized form, and the normalized form is always ordered. -/
theorem c5_reversed_selection_same_text (buf : Buffer) (s e : CellPos) :
    normalizeSelection s e = normalizeSelection e s ∧
    getSelectionOf buf s e = getSelectionOf buf e s ∧
    ((normalizeSelection s e).startRow < (normalizeSelection s e).endRow ∨
      ((normalizeSelection s e).startRow = (normalizeSelection s e).endRow ∧
        (normalizeSelection s e).startCol ≤ (normalizeSelection s e).endCol)) := by
  obtain ⟨sc, sr⟩ := s
  obtain ⟨ec, er⟩ := e
  have hcomm : normalizeSelection ⟨sc, sr⟩ ⟨ec, er⟩ =
      normalizeSelection ⟨ec, er⟩ ⟨sc, sr⟩ := by
    unfold normalizeSelection
    by_cases h1 : sr > er ∨ (sr = er ∧ sc > ec) <;>
      by_cases h2 : er > sr ∨ (er = sr ∧ ec > sc) <;>
        simp only [h1, h2, if_pos, if_neg, if_true, if_false, ite_true,
          ite_false, reduceIte] <;> first
          | rfl
          | (exfalso; omega)
          | (have hre : sr = er ∧ sc = ec := by omega
             simp [hre.1, hre.2])
  refine ⟨hcomm, by unfold getSelectionOf; rw [hcomm], ?_⟩
  unfold normalizeSelection
  by_cases h1 : sr > er ∨ (sr = er ∧ sc > ec) <;> simp only [h1, reduceIte] <;> omega

/-- **C7.** Only lifecycle misuse throws: `write` before `open` and after
`dispose` throws, opening an already-open or disposed terminal throws;
whereas the selection API and scrolling return normally in every state, and
with no active selection `getSelection` degrades to the empty string (the
scroll operations live outside src/ and are modelled from the spec). -/
theorem c7_only_lifecycle_misuse_throws (buf : Buffer) (st : TermState)
    (data : List Nat) (cols rows sbl : Nat) (offset delta : Rat) :
    (st.isOpen = false → ∃ msg, write st data = .error msg) ∧
    (st.isDisposed = true → ∃ msg, write st data = .error msg) ∧
    (st.isOpen = true → openTerminal st = .error "Terminal is already open") ∧
    (st.isOpen = false → st.isDisposed = true →
      openTerminal st = .error "Terminal has been disposed") ∧
    (∃ r, getSelectionT buf st = .ok r) ∧
    (∃ r, hasSelectionT st = .ok r) ∧
    (∃ r, clearSelectionT st = .ok r) ∧
    (∃ r, selectAllT cols rows st = .ok r) ∧
    (∃ r, scrollByT sbl offset delta = .ok r) ∧
    (st.selectionManager = some initSelMgr → getSelectionT buf st = .ok []) := by
  refine ⟨fun h => ?_, fun h => ?_, fun h => ?_, fun h hd => ?_,
    ⟨_, rfl⟩, ⟨_, rfl⟩, ⟨_, rfl⟩, ⟨_, rfl⟩, ⟨_, rfl⟩, fun h => ?_⟩
  · simp [write, assertOpen, h]
  · cases hOpen : st.isOpen <;> simp [write, assertOpen, hOpen, h]
  · simp [openTerminal, h]
  · simp [openTerminal, h, hd]
  · simp [getSelectionT, h, getSelectionS, normalizeSelectionS, initSelMgr]

/-- **C8.** Writing to an open terminal first clears any active selection
and only then applies the data to the state machine, so immediately after
`write` returns no selection is active and the data has been appended. -/
theorem c8_write_clears_selection (st : TermState) (data : List Nat)
    (hOpen : st.isOpen = true) (hDisp : st.isDisposed = false) :
    ∃ res, write st data = .ok res ∧ hasSelectionT res = .ok false ∧
      res.wasmWrites = st.wasmWrites ++ [data] := by
  cases hm : st.selectionManager with
  | none =>
    refine ⟨{ st with wasmWrites := st.wasmWrites ++ [data] }, ?_, ?_, rfl⟩
    · simp [write, assertOpen, hOpen, hDisp, hm]
    · simp [hasSelectionT, hm]
  | some m =>
    by_cases hs : hasSelectionS m = true
    · refine ⟨{ st with selectionManager := some (clearSelectionS m), wasmWrites := st.wasmWrites ++ [data] }, ?_, ?_, rfl⟩
      · simp [write, assertOpen, hOpen, hDisp, hm, hs]
      · simp [hasSelectionT, hasSelection_clearSelection]
    · refine ⟨{ st with wasmWrites := st.wasmWrites ++ [data] }, ?_, ?_, rfl⟩
      · simp [write, assertOpen, hOpen, hDisp, hm, hs]
      · simp only [hasSelectionT, hm]
        simpa using hs

/-- **C8 witness.** The open terminal holding the scenario selection: after
writing one byte the selection is gone and the byte was applied. -/
theorem c8_write_clears_selection_witness :
    ∃ res, write openSelTerm [72] = .ok res ∧ hasSelectionT res = .ok false ∧
      res.wasmWrites = openSelTerm.wasmWrites ++ [[72]] :=
  c8_write_clears_selection openSelTerm [72] rfl rfl

/-- **C9.** A clipboard write failure is never surfaced: the copy entry
point always returns normally, a failing Clipboard API write falls through
to the fallback strategy, a fallback whose `execCommand` reports failure or
whose DOM work throws only logs, and the mouseup finalization that triggers
the copy never throws either. -/
theorem c9_clipboard_failures_recovered (env : ClipboardEnv) (text : List Nat)
    (buf : Buffer) (st : SelMgrState) :
    (∃ r, copyToClipboard env text = .ok r) ∧
    (∃ r, copyToClipboardFallback env = .ok r) ∧
    (text ≠ [] → env.primaryAvailable = true → env.primarySucceeds = false →
      copyToClipboard env text = copyToClipboardFallback env) ∧
    (env.fallbackThrows = false → env.execCommandSucceeds = false →
      copyToClipboardFallback env = .ok .copyFailedLogged) ∧
    (env.fallbackThrows = true →
      copyToClipboardFallback env = .ok .fallbackErrorLogged) ∧
    (∃ r, mouseUp buf env st = .ok r) := by
  refine ⟨copyToClipboard_ok env text, ?_, fun h0 h1 h2 => ?_, fun h3 h4 => ?_,
    fun h3 => ?_, ?_⟩
  · unfold copyToClipboardFallback copyFallbackRaw
    by_cases h3 : env.fallbackThrows = true <;>
      by_cases h4 : env.execCommandSucceeds = true <;> simp [h3, h4]
  · simp [copyToClipboard, h0, h1, h2]
  · simp [copyToClipboardFallback, copyFallbackRaw, h3, h4]
  · simp [copyToClipboardFallback, copyFallbackRaw, h3]
  · unfold mouseUp
    by_cases hSel : st.isSelecting = true
    · simp only [hSel, if_true, reduceIte]
      obtain ⟨r, hr⟩ := copyToClipboard_ok env
        (getSelectionS buf { st with isSelecting := false })
      by_cases hTxt : getSelectionS buf { st with isSelecting := false } = [] <;>
        simp [hTxt, hr]
    · simp [hSel]

/-- **C10.** `dispose` is idempotent: the first call marks the terminal
disposed and closed, cancels the render loop's animation frame, disposes
every addon and the event emitters and tears the components down, and any
call on an already-disposed terminal returns the state unchanged — no
repeated cleanup, no error. -/
theorem c10_dispose_idempotent (st : TermState) :
    (dispose st).isDisposed = true ∧
    dispose (dispose st) = dispose st ∧
    (st.isDisposed = false →
      (dispose st).isOpen = false ∧ (dispose st).animationFrameId = none ∧
      (dispose st).addons = [] ∧
      (dispose st).addonsDisposed = st.addonsDisposed ++ st.addons ∧
      (dispose st).emittersDisposed = true ∧
      (dispose st).selectionManager = none) ∧
    (st.isDisposed = true → dispose st = st) := by
  by_cases h : st.isDisposed = true <;> simp [dispose, h]

/-- **C6.** Word selection at a non-word cell (codepoint 0 included, since
the predicate rejects it) yields no selection and leaves the state alone;
word selection at a word cell yields the single-row selection over the
maximal contiguous run of word cells containing that column — every cell of
the span is a word character, both neighbours of the span are not (or the
span touches the line edge), and every internal column of the span produces
the same span. -/
theorem c6_word_selection (buf : Buffer) (cells : Line) (col row : Nat)
    (hline : getLine buf row = some cells) :
    (isWordCharAt cells col = false → getWordAtCell buf col row = none ∧
      selectWord buf col row initSelMgr = initSelMgr) ∧
    (∀ s e, getWordAtCell buf col row = some (s, e) →
      s ≤ col ∧ col ≤ e ∧
      (∀ j, s ≤ j → j ≤ e → isWordCharAt cells j = true) ∧
      (s = 0 ∨ isWordCharAt cells (s - 1) = false) ∧
      isWordCharAt cells (e + 1) = false ∧
      (∀ c2, s ≤ c2 → c2 ≤ e → getWordAtCell buf c2 row = some (s, e)) ∧
      selectWord buf col row initSelMgr =
        { initSelMgr with selectionStart := some ⟨s, row⟩,
                          selectionEnd := some ⟨e, row⟩ }) := by
  constructor
  · intro hnw
    have hnone : getWordAtCell buf col row = none := by
      simp only [getWordAtCell, hline]
      rw [if_neg (by simp [hnw])]
    refine ⟨hnone, ?_⟩
    unfold selectWord
    rw [hnone]
  · intro s e hsome
    have hw : isWordCharAt cells col = true := by
      by_contra hc
      rw [Bool.not_eq_true] at hc
      simp only [getWordAtCell, hline] at hsome
      rw [if_neg (by simp [hc])] at hsome
      exact Option.noConfusion hsome
    have hse : scanLeft cells col = s ∧ scanRight cells col = e := by
      simp only [getWordAtCell, hline] at hsome
      rw [if_pos hw] at hsome
      simpa using hsome
    obtain ⟨hs, he⟩ := hse
    subst hs
    subst he
    have hall : ∀ j, scanLeft cells col ≤ j → j ≤ scanRight cells col →
        isWordCharAt cells j = true := by
      intro j hj1 hj2
      rcases Nat.lt_trichotomy j col with hj | hj | hj
      · exact scanLeft_word cells col j hj1 hj
      · rwa [hj]
      · exact scanRight_word cells col j hj hj2
    refine ⟨scanLeft_le cells col, scanRight_ge cells col, hall,
      scanLeft_boundary cells col, scanRight_boundary cells col, ?_, ?_⟩
    · intro c2 hc1 hc2
      have hwc2 : isWordCharAt cells c2 = true := hall c2 hc1 hc2
      have hL : scanLeft cells c2 = scanLeft cells col :=
        scanLeft_eq_of cells c2 (scanLeft cells col) hc1
          (scanLeft_boundary cells col)
          (fun j hj1 hj2 => hall j hj1 (by omega))
      have hR : scanRight cells c2 = scanRight cells col :=
        scanRight_eq_of cells c2 (scanRight cells col) hc2
          (scanRight_boundary cells col)
          (fun j hj1 hj2 => hall j (by omega) hj2)
      simp only [getWordAtCell, hline]
      rw [if_pos hwc2, hL, hR]
    · unfold selectWord
      rw [hsome]

/-- **C6 witness.** The word properties evaluated at column 2 of the
one-row `hello` buffer. -/
theorem c6_word_selection_witness :
    (isWordCharAt wordLine 2 = false → getWordAtCell wordBuffer 2 0 = none ∧
      selectWord wordBuffer 2 0 initSelMgr = initSelMgr) ∧
    (∀ s e, getWordAtCell wordBuffer 2 0 = some (s, e) →
      s ≤ 2 ∧ 2 ≤ e ∧
      (∀ j, s ≤ j → j ≤ e → isWordCharAt wordLine j = true) ∧
      (s = 0 ∨ isWordCharAt wordLine (s - 1) = false) ∧
      isWordCharAt wordLine (e + 1) = false ∧
      (∀ c2, s ≤ c2 → c2 ≤ e → getWordAtCell wordBuffer c2 0 = some (s, e)) ∧
      selectWord wordBuffer 2 0 initSelMgr =
        { initSelMgr with selectionStart := some ⟨s, 0⟩,
                          selectionEnd := some ⟨e, 0⟩ }) :=
  c6_word_selection wordBuffer wordLine 2 0 rfl

end GhosttyWeb
